import Mathlib

/-!
Verification development for the `atrium-calendar-feed` build script
(`src/build.js`): a shallow embedding of its ICS parsing core — field
extraction (`getLine` / `getSimple`), the timezone offset resolver
(`tzOffsetAt` / `wallClockToUTCISO`), the date-shape dispatcher
(`toISOWithZone`), the block splitter / event normalizer (`parseICS`),
and the window selector — together with theorems about the embedded code.

Conventions of the embedding:
* Instants are milliseconds since the Unix epoch, as `Int` (JS time values).
* A named timezone is modelled by its rendering function
  `lc : Int → Int`, mapping a UTC instant `t` to the milliseconds value
  obtained by reading the zone's wall-clock rendering of `t` back as if it
  were UTC (exactly the `Date.UTC(formatToParts(t))` composite the source
  computes through `Intl.DateTimeFormat`).  The zone-name-to-renderer
  lookup (the IANA database behind `Intl`) is external to the repository
  and is passed in as `tzdb : String → Int → Int`.
* Fallible JS operations (`Date.prototype.toISOString` on an invalid
  date throws a `RangeError`) are modelled with `Except Unit`.
-/

namespace AtriumCalendar

/-! ## Character-list helpers (JS string primitives) -/

/-- JS whitespace as relevant here (`String.prototype.trim` on feed text):
space, tab, CR, LF. -/
def isJsWs (c : Char) : Bool :=
  c = ' ' || c = '\t' || c = '\r' || c = '\n'

/-- `String.prototype.trim`: drop leading and trailing whitespace. -/
def trimChars (l : List Char) : List Char :=
  ((l.dropWhile isJsWs).reverse.dropWhile isJsWs).reverse

/-- Numeric value of a digit string (the JS unary `+` on an all-digit
string, as used on the `slice` pieces of a matched date value). -/
def digitsVal (l : List Char) : Nat :=
  l.foldl (fun a c => 10 * a + (c.toNat - 48)) 0

/-- One global `String.prototype.replace` of the two-character pattern
`p1 p2` by the single character `r`: left-to-right, non-overlapping. -/
def replacePair (p1 p2 r : Char) : List Char → List Char
  | [] => []
  | [c] => [c]
  | c1 :: c2 :: rest =>
    if c1 = p1 ∧ c2 = p2 then r :: replacePair p1 p2 r rest
    else c1 :: replacePair p1 p2 r (c2 :: rest)

/-- `ics.replace(/\r\n/g, '\n')`: CRLF → LF, left-to-right. -/
def crlfToLf : List Char → List Char
  | [] => []
  | [c] => [c]
  | c1 :: c2 :: rest =>
    if c1 = '\r' ∧ c2 = '\n' then '\n' :: crlfToLf rest
    else c1 :: crlfToLf (c2 :: rest)

/-- `ics.replace(/\n[ \t]/g, '')`: remove every line fold (a newline
followed by a single space or tab), deleting both characters;
left-to-right, non-overlapping. -/
def removeFolds : List Char → List Char
  | [] => []
  | [c] => [c]
  | c1 :: c2 :: rest =>
    if c1 = '\n' ∧ (c2 = ' ' ∨ c2 = '\t') then removeFolds rest
    else c1 :: removeFolds (c2 :: rest)

/-! ## Civil-date arithmetic (`Date.UTC`) -/

/-- Days from the epoch 1970-01-01 of the proleptic-Gregorian civil date
`(y, m, d)` with `m ∈ 1..12` (`d` may be any integer, counted from the
first of the month).  Standard era/year-of-era decomposition. -/
def daysFromCivil (y m d : Int) : Int :=
  let y2 := if m ≤ 2 then y - 1 else y
  let era := y2.fdiv 400
  let yoe := y2 - era * 400
  let mp := (m + 9).emod 12
  let doy := (153 * mp + 2).fdiv 5 + d - 1
  let doe := yoe * 365 + yoe.fdiv 4 - yoe.fdiv 100 + doy
  era * 146097 + (doe - 719468)

/-- `Date.UTC(y, mIdx, d, H, M, S)` in milliseconds: 0-based month index
with overflow normalization into the year, the two-digit-year mapping
0..99 ↦ 1900..1999, and arbitrary field overflow folded in linearly. -/
def dateUTCms (y mIdx d H M S : Int) : Int :=
  let yAdj := if 0 ≤ y ∧ y ≤ 99 then y + 1900 else y
  let y2 := yAdj + mIdx.fdiv 12
  let m := mIdx.emod 12
  daysFromCivil y2 (m + 1) d * 86400000 + H * 3600000 + M * 60000 + S * 1000

/-! ## Timezone offset resolver (`tzOffsetAt`, `wallClockToUTCISO`) -/

/-- `tzOffsetAt(utcDate, timeZone)`: render the instant `t` in the zone
(composite rendering function `lc`, see module docstring) and return
`asIfUTC - utcDate.getTime()`. -/
def tzOffsetAt (lc : Int → Int) (t : Int) : Int :=
  lc t - t

/-- `wallClockToUTCISO(y, m, d, H, M, S, tz)` (minus the final ISO-string
formatting, which is injective on instants): interpret the civil fields
as if already UTC via `Date.UTC`, read the offset there, subtract. -/
def wallClockToUTC (lc : Int → Int) (y m d H M S : Int) : Int :=
  let t := dateUTCms y m d H M S
  t - tzOffsetAt lc t

/-! ## Splitting (`String.prototype.split`) -/

/-- `s.split('\n')` on character lists; always returns at least one
(possibly empty) piece, like the JS original. -/
def splitLines : List Char → List (List Char)
  | [] => [[]]
  | c :: rest =>
    match splitLines rest with
    | [] => [[]]
    | l :: ls => if c = '\n' then [] :: l :: ls else (c :: l) :: ls

/-- `s.split(sep)` for a nonempty separator, on character lists:
left-to-right, non-overlapping.  The fuel argument (the input length at
the top call) only bounds the recursion; every call consumes at least
one character. -/
def splitOnSeqAux (sep : List Char) : Nat → List Char → List (List Char)
  | _, [] => [[]]
  | 0, l => [l]
  | fuel + 1, c :: rest =>
    if sep.isPrefixOf (c :: rest) then
      [] :: splitOnSeqAux sep fuel ((c :: rest).drop sep.length)
    else
      match splitOnSeqAux sep fuel rest with
      | [] => [[]]
      | l :: ls => (c :: l) :: ls

def splitOnSeq (sep l : List Char) : List (List Char) :=
  splitOnSeqAux sep l.length l

/-! ## Field extraction (`getLine`, `getSimple`) -/

/-- One attempt of the `getLine` pattern `^NAME([^:\n]*):([^\n]+)` on a
single (newline-free) logical line: the line must start with `name`, the
parameter capture runs to the first colon, and the value capture is the
nonempty remainder of the line.  Returns `(paramsStr, rawValue)`. -/
def matchGetLine (name line : List Char) : Option (List Char × List Char) :=
  -- After the name, the parameter capture `[^:\n]*` runs to the first
  -- colon (`takeWhile`); the rest of the line past that colon
  -- (`dropWhile …, drop 1`) is the value capture, required nonempty.
  -- No colon at all, or an empty value, fails the pattern.
  if name.isPrefixOf line then
    if (line.drop name.length).dropWhile (fun c => c ≠ ':') = [] ∨
        ((line.drop name.length).dropWhile (fun c => c ≠ ':')).drop 1 = [] then
      none
    else
      some ((line.drop name.length).takeWhile (fun c => c ≠ ':'),
        ((line.drop name.length).dropWhile (fun c => c ≠ ':')).drop 1)
  else none

/-- First line (in order) matching the `getLine` pattern: the `m`-flagged
regex anchors at each line start and `String.prototype.match` returns the
first match in string order. -/
def getLineAux (name : List Char) : List (List Char) → Option (List Char × List Char)
  | [] => none
  | l :: ls =>
    match matchGetLine name l with
    | some r => some r
    | none => getLineAux name ls

/-- The global scan `paramsStr.replace(/;([^=;:]+)=([^;:]+)/g, ...)`
recording `params[key.toUpperCase()] = value` at each match, left to
right; a failed attempt advances one position.  The fuel argument (the
input length at the top call) only bounds the recursion: every call
consumes at least one character, so it never runs out early. -/
def parseParamsAux : Nat → List Char → List (String × String)
  | 0, _ => []
  | _, [] => []
  | fuel + 1, c :: rest =>
    if c = ';' then
      let k := rest.takeWhile (fun d => ¬(d = '=' ∨ d = ';' ∨ d = ':'))
      match rest.dropWhile (fun d => ¬(d = '=' ∨ d = ';' ∨ d = ':')) with
      | '=' :: r2 =>
        if k = [] then parseParamsAux fuel rest
        else
          let v := r2.takeWhile (fun d => ¬(d = ';' ∨ d = ':'))
          if v = [] then parseParamsAux fuel rest
          else
            (String.mk (k.map Char.toUpper), String.mk v) ::
              parseParamsAux fuel (r2.dropWhile (fun d => ¬(d = ';' ∨ d = ':')))
      | _ => parseParamsAux fuel rest
    else parseParamsAux fuel rest

def parseParams (ps : List Char) : List (String × String) :=
  parseParamsAux ps.length ps

/-- JS object lookup `params[k]` after the assignments of the scan: the
last assignment to a key wins. -/
def paramLookup (ps : List (String × String)) (k : String) : Option String :=
  ps.foldl (fun acc p => if p.1 = k then some p.2 else acc) none

/-- The result of `getLine`: `{ value: m[2].trim(), params }`. -/
structure ICalLine where
  value : String
  params : List (String × String)
deriving DecidableEq

/-- `getLine(block, name)`: first line of the block matching
`^NAME([^:\n]*):([^\n]+)` (multiline), value trimmed, parameters parsed
from the first capture. -/
def getLine (block name : String) : Option ICalLine :=
  match getLineAux name.data (splitLines block.data) with
  | none => none
  | some (ps, v) => some ⟨String.mk (trimChars v), parseParams ps⟩

/-- One attempt of the `getSimple` pattern `^NAME(?:;[^:\n]+)?:([^\n]+)`
on a single (newline-free) logical line. -/
def matchGetSimple (name line : List Char) : Option (List Char) :=
  -- Either the colon follows the name directly (no parameter group), or
  -- a `;[^:\n]+` parameter group does, terminated by the first colon; the
  -- value capture past the colon is required nonempty.
  if name.isPrefixOf line then
    if (line.drop name.length).take 1 = [(':' : Char)] then
      if (line.drop name.length).drop 1 = [] then none
      else some ((line.drop name.length).drop 1)
    else if (line.drop name.length).take 1 = [(';' : Char)] then
      if ((line.drop name.length).drop 1).takeWhile (fun c => c ≠ ':') = [] then
        none
      else if ((line.drop name.length).drop 1).dropWhile (fun c => c ≠ ':') = [] ∨
          (((line.drop name.length).drop 1).dropWhile (fun c => c ≠ ':')).drop 1 = [] then
        none
      else
        some ((((line.drop name.length).drop 1).dropWhile (fun c => c ≠ ':')).drop 1)
    else none
  else none

def getSimpleAux (name : List Char) : List (List Char) → Option (List Char)
  | [] => none
  | l :: ls =>
    match matchGetSimple name l with
    | some r => some r
    | none => getSimpleAux name ls

/-- `getSimple(block, name)`: value of the first matching line, trimmed;
the empty string when no line matches. -/
def getSimple (block name : String) : String :=
  match getSimpleAux name.data (splitLines block.data) with
  | none => ""
  | some v => String.mk (trimChars v)

/-- `unesc`: `\n` → newline, then `\,` → comma, then `\\` → backslash,
then trim. -/
def unesc (s : String) : String :=
  String.mk (trimChars
    (replacePair '\\' '\\' '\\'
      (replacePair '\\' ',' ','
        (replacePair '\\' 'n' '\n' s.data))))

/-! ## Date-shape dispatch (`toISOWithZone`) -/

/-- `/^\d{8}$/`. -/
def isDigits8 (s : String) : Bool :=
  s.data.length == 8 && s.data.all Char.isDigit

/-- `/^\d{8}T\d{6}Z$/`. -/
def isBasicZ (s : String) : Bool :=
  s.data.length == 16 && (s.data.take 8).all Char.isDigit &&
    (s.data.drop 8).take 1 == [('T' : Char)] &&
    ((s.data.drop 9).take 6).all Char.isDigit &&
    s.data.drop 15 == [('Z' : Char)]

/-- `/^\d{8}T\d{6}$/`. -/
def isBasicLocal (s : String) : Bool :=
  s.data.length == 15 && (s.data.take 8).all Char.isDigit &&
    (s.data.drop 8).take 1 == [('T' : Char)] &&
    ((s.data.drop 9).take 6).all Char.isDigit

/-- `+v.slice(a, b)` on an all-digit slice. -/
def sliceVal (s : String) (a b : Nat) : Int :=
  (digitsVal ((s.data.drop a).take (b - a)) : Int)

/-- Modelled from the spec: the best-effort generic date-time parse, i.e.
the ECMAScript `new Date(string)` constructor — external runtime code,
not part of this repository.  Per the spec, a `YYYYMMDDTHHMMSSZ` value
is "already UTC; parse directly" (the shape the source routes through
this constructor on its passthrough branch); a string with no
recognizable date content — such as `"hello"` — yields an invalid date
in every engine (ECMA-262 then makes `toISOString` throw a
`RangeError`), modelled as `none`.  Other implementation-specific
heuristic formats are not modelled; no claim depends on them. -/
def jsDateParse (s : String) : Option Int :=
  if isBasicZ s then
    some (dateUTCms (sliceVal s 0 4) (sliceVal s 4 6 - 1) (sliceVal s 6 8)
      (sliceVal s 9 11) (sliceVal s 11 13) (sliceVal s 13 15))
  else none

/-- `toISOWithZone(line, defaultTZ)`: dispatch on the shape of the value;
`tzdb` is the ambient zone-name-to-renderer lookup (the `Intl` timezone
database), `Except.error` models a thrown `RangeError`. -/
def toISOWithZone (tzdb : String → Int → Int) (line : Option ICalLine)
    (defaultTZ : String) : Except Unit (Option Int) :=
  match line with
  | none => Except.ok none
  | some l =>
    let v := l.value
    let tz := match paramLookup l.params ("TZID") with
      | some t => t
      | none => defaultTZ
    if isDigits8 v then
      Except.ok (some (wallClockToUTC (tzdb tz)
        (sliceVal v 0 4) (sliceVal v 4 6 - 1) (sliceVal v 6 8) 0 0 0))
    else if isBasicZ v then
      match jsDateParse v with
      | some t => Except.ok (some t)
      | none => Except.error ()
    else if isBasicLocal v then
      Except.ok (some (wallClockToUTC (tzdb tz)
        (sliceVal v 0 4) (sliceVal v 4 6 - 1) (sliceVal v 6 8)
        (sliceVal v 9 11) (sliceVal v 11 13) (sliceVal v 13 15)))
    else
      match jsDateParse v with
      | some t => Except.ok (some t)
      | none => Except.error ()

/-! ## Event normalizer and block splitter (`parseICS`) -/

deriving instance DecidableEq for Except

structure NormalizedEvent where
  title : String
  location : String
  description : String
  allDay : Bool
  start : Option Int
  end_ : Option Int
deriving DecidableEq

/-- The body of the `blocks.map` callback in `parseICS`: one block to one
event record; a thrown `RangeError` from a date field propagates. -/
def normalizeBlock (tzdb : String → Int → Int) (defaultTZ : String)
    (block : String) : Except Unit NormalizedEvent :=
  let sLine := getLine block ("DTSTART")
  let eLine := getLine block ("DTEND")
  let rawTitle := unesc (getSimple block ("SUMMARY"))
  let title := if rawTitle = "" then "Untitled" else rawTitle
  let location := unesc (getSimple block ("LOCATION"))
  let description := unesc (getSimple block ("DESCRIPTION"))
  let all : Bool :=
    match sLine with
    | none => false
    | some l => (paramLookup l.params ("VALUE") == some ("DATE")) || isDigits8 l.value
  match toISOWithZone tzdb sLine defaultTZ, toISOWithZone tzdb eLine defaultTZ with
  | Except.ok s, Except.ok e => Except.ok ⟨title, location, description, all, s, e⟩
  | Except.error u, _ => Except.error u
  | _, Except.error u => Except.error u

/-- The preprocessing of `parseICS`: CRLF normalization, then fold
removal — in that order, before any splitting. -/
def preprocessICS (s : String) : String :=
  String.mk (removeFolds (crlfToLf s.data))

/-- `ics.split('BEGIN:VEVENT').slice(1).map(b => 'BEGIN:VEVENT' + b)`. -/
def icsBlocks (s : String) : List String :=
  ((splitOnSeq ("BEGIN:VEVENT".data) (preprocessICS s).data).drop 1).map
    (fun b => String.mk ("BEGIN:VEVENT".data ++ b))

/-- `parseICS` (with the configured display timezone made an explicit
argument): one record per block; the first thrown error aborts the map. -/
def parseICS (tzdb : String → Int → Int) (defaultTZ : String) (ics : String) :
    Except Unit (List NormalizedEvent) :=
  (icsBlocks ics).mapM (normalizeBlock tzdb defaultTZ)

/-! ## Window selector -/

def TIMEZONE : String := "America/New_York"

def DAYS_AHEAD : Int := 45

def MAX_ITEMS : Nat := 30

/-- The sort key `+new Date(e.start)`; the selector only ever compares
events whose `start` is non-null. -/
def startKey (e : NormalizedEvent) : Int :=
  e.start.getD 0

/-- The comparator `(a, b) => new Date(a.start) - new Date(b.start)` as
the order it induces on a stable sort. -/
def eventLE (a b : NormalizedEvent) : Bool :=
  decide (startKey a ≤ startKey b)

/-- `e.start && new Date(e.start) >= now && new Date(e.start) <= until`
with `until = now + DAYS_AHEAD * 86400000`. -/
def inWindow (now : Int) (e : NormalizedEvent) : Bool :=
  match e.start with
  | none => false
  | some s => decide (now ≤ s) && decide (s ≤ now + DAYS_AHEAD * 86400000)

def windowFilter (events : List NormalizedEvent) (now : Int) : List NormalizedEvent :=
  events.filter (inWindow now)

/-- `events.filter(...).sort(...).slice(0, MAX_ITEMS)`; ECMAScript
`Array.prototype.sort` is a stable sort, embedded as `List.mergeSort`. -/
def selectWindow (events : List NormalizedEvent) (now : Int) : List NormalizedEvent :=
  (((windowFilter events now).mergeSort eventLE).take MAX_ITEMS)

/-! ## Concrete timezone renderers for instantiating theorems -/

/-- A zone rendering identical to UTC (offset 0 everywhere). -/
def utcZone : Int → Int := fun t => t

/-- A timezone database mapping every name to the UTC renderer; used to
instantiate theorems whose content does not depend on the zone. -/
def trivTzdb : String → Int → Int := fun _ => utcZone

/-- Modelled from the spec: the `Intl`/IANA rendering of
`America/New_York` in a neighbourhood of the 2025 spring-forward
transition (UTC−05:00 before 2025-03-09T07:00:00Z = 1741503600000 ms,
UTC−04:00 from that instant on) — the spec's §8 test point "verify both
sides of a known transition date".  The database itself is external to
the repository. -/
def nyRender2025 (t : Int) : Int :=
  if t < 1741503600000 then t - 18000000 else t - 14400000

/-- A fixed-offset renderer at UTC−05:00 (no transitions). -/
def fixedMinus5 : Int → Int := fun t => t - 18000000

/-! ## Lemmas about field extraction -/

/-- A nonempty `dropWhile (· ≠ ':')` result starts with the colon. -/
lemma dropWhile_colon_head {l : List Char}
    (h : l.dropWhile (fun c => c ≠ ':') ≠ []) :
    l.dropWhile (fun c => c ≠ ':') =
      ':' :: (l.dropWhile (fun c => c ≠ ':')).drop 1 := by
  induction l with
  | nil => simp at h
  | cons c rest ih =>
    rw [List.dropWhile_cons] at h ⊢
    by_cases hc : c = ':'
    · subst hc
      rw [if_neg (by simp)]
      simp
    · rw [if_pos (by simp [hc])] at h ⊢
      exact ih h

lemma matchGetLine_eq_some {name line ps v : List Char}
    (h : matchGetLine name line = some (ps, v)) :
    line = name ++ ps ++ ':' :: v ∧ (∀ c ∈ ps, c ≠ ':') ∧ v ≠ [] := by
  by_cases hp : name.isPrefixOf line
  case neg => simp [matchGetLine, hp] at h
  case pos =>
    obtain ⟨t, ht⟩ := List.isPrefixOf_iff_prefix.mp hp
    have hdrop : line.drop name.length = t := by
      rw [← ht, List.drop_left]
    unfold matchGetLine at h
    rw [if_pos hp, hdrop] at h
    by_cases hcase : t.dropWhile (fun c => c ≠ ':') = [] ∨
        (t.dropWhile (fun c => c ≠ ':')).drop 1 = []
    · rw [if_pos hcase] at h
      exact absurd h (by simp)
    · rw [if_neg hcase] at h
      push_neg at hcase
      obtain ⟨rfl, rfl⟩ := Prod.mk.inj (Option.some_inj.mp h)
      refine ⟨?_, ?_, hcase.2⟩
      · rw [← ht, ← dropWhile_colon_head hcase.1, List.append_assoc,
          List.takeWhile_append_dropWhile]
      · intro c hc
        simpa using List.mem_takeWhile_imp hc

lemma getLineAux_eq_some {name : List Char} {ls : List (List Char)}
    {r : List Char × List Char} (h : getLineAux name ls = some r) :
    ∃ ln ∈ ls, matchGetLine name ln = some r := by
  induction ls with
  | nil => simp [getLineAux] at h
  | cons l ls ih =>
    simp only [getLineAux] at h
    cases hm : matchGetLine name l with
    | some r2 =>
      rw [hm] at h
      exact ⟨l, by simp, hm.trans h⟩
    | none =>
      rw [hm] at h
      obtain ⟨ln, hmem, hml⟩ := ih h
      exact ⟨ln, by simp [hmem], hml⟩

lemma matchGetSimple_eq_some {name line v : List Char}
    (h : matchGetSimple name line = some v) :
    ∃ mid, line = name ++ mid ++ ':' :: v ∧ v ≠ [] := by
  by_cases hp : name.isPrefixOf line
  case neg => simp [matchGetSimple, hp] at h
  case pos =>
    obtain ⟨t, ht⟩ := List.isPrefixOf_iff_prefix.mp hp
    have hdrop : line.drop name.length = t := by
      rw [← ht, List.drop_left]
    unfold matchGetSimple at h
    rw [if_pos hp, hdrop] at h
    by_cases h1 : t.take 1 = [(':' : Char)]
    · rw [if_pos h1] at h
      by_cases h2 : t.drop 1 = []
      · rw [if_pos h2] at h
        exact absurd h (by simp)
      · rw [if_neg h2] at h
        obtain rfl := Option.some_inj.mp h
        refine ⟨[], ?_, h2⟩
        have ht2 : t = ':' :: t.drop 1 := by
          conv_lhs => rw [← List.take_append_drop 1 t]
          rw [h1]
          rfl
        rw [← ht, List.append_nil]
        conv_lhs => rw [ht2]
    · rw [if_neg h1] at h
      by_cases h2 : t.take 1 = [(';' : Char)]
      · rw [if_pos h2] at h
        by_cases h3 : (t.drop 1).takeWhile (fun c => c ≠ ':') = []
        · rw [if_pos h3] at h
          exact absurd h (by simp)
        · rw [if_neg h3] at h
          by_cases h4 : (t.drop 1).dropWhile (fun c => c ≠ ':') = [] ∨
              ((t.drop 1).dropWhile (fun c => c ≠ ':')).drop 1 = []
          · rw [if_pos h4] at h
            exact absurd h (by simp)
          · rw [if_neg h4] at h
            push_neg at h4
            obtain rfl := Option.some_inj.mp h
            refine ⟨';' :: (t.drop 1).takeWhile (fun c => c ≠ ':'), ?_, h4.2⟩
            have ht2 : t = ';' :: t.drop 1 := by
              conv_lhs => rw [← List.take_append_drop 1 t]
              rw [h2]
              rfl
            have ht3 : t.drop 1 =
                (t.drop 1).takeWhile (fun c => c ≠ ':') ++
                  ':' :: ((t.drop 1).dropWhile (fun c => c ≠ ':')).drop 1 := by
              conv_lhs => rw [← List.takeWhile_append_dropWhile
                (p := fun c => c ≠ ':') (l := t.drop 1)]
              rw [← dropWhile_colon_head h4.1]
            rw [← ht]
            conv_lhs => rw [ht2, ht3]
            simp
      · rw [if_neg h2] at h
        exact absurd h (by simp)

lemma getSimpleAux_eq_some {name : List Char} {ls : List (List Char)}
    {v : List Char} (h : getSimpleAux name ls = some v) :
    ∃ ln ∈ ls, matchGetSimple name ln = some v := by
  induction ls with
  | nil => simp [getSimpleAux] at h
  | cons l ls ih =>
    simp only [getSimpleAux] at h
    cases hm : matchGetSimple name l with
    | some r2 =>
      rw [hm] at h
      exact ⟨l, by simp, hm.trans h⟩
    | none =>
      rw [hm] at h
      obtain ⟨ln, hmem, hml⟩ := ih h
      exact ⟨ln, by simp [hmem], hml⟩

/-- A line that is just the field name and a colon (empty value) never
matches the `getLine` pattern: the value capture `[^\n]+` needs at least
one character. -/
lemma matchGetLine_empty_value (name : List Char) :
    matchGetLine name (name ++ [':']) = none := by
  unfold matchGetLine
  rw [if_pos (List.isPrefixOf_iff_prefix.mpr (List.prefix_append name [':']))]
  rw [List.drop_left]
  rw [if_pos (by decide)]

/-- Likewise for the `getSimple` pattern. -/
lemma matchGetSimple_empty_value (name : List Char) :
    matchGetSimple name (name ++ [':']) = none := by
  unfold matchGetSimple
  rw [if_pos (List.isPrefixOf_iff_prefix.mpr (List.prefix_append name [':']))]
  rw [List.drop_left]
  rw [if_pos (by decide), if_pos (by decide)]

/-! ## Lemmas about the normalizer -/

lemma except_isOk_iff {ε α : Type} {e : Except ε α} :
    e.isOk = true ↔ ∃ a, e = Except.ok a := by
  cases e <;> simp [Except.isOk, Except.toBool]

/-- Every successful branch of `toISOWithZone` on a present line yields a
concrete instant, never `null`. -/
lemma toISOWithZone_ok_some {tzdb : String → Int → Int} {l : ICalLine}
    {dtz : String} {o : Option Int}
    (h : toISOWithZone tzdb (some l) dtz = Except.ok o) : o.isSome = true := by
  simp only [toISOWithZone] at h
  split at h
  · injection h with h2
    rw [← h2]
    rfl
  · split at h
    · split at h
      · injection h with h2
        rw [← h2]
        rfl
      · exact absurd h (by simp)
    · split at h
      · injection h with h2
        rw [← h2]
        rfl
      · split at h
        · injection h with h2
          rw [← h2]
          rfl
        · exact absurd h (by simp)

/-- Characterization of a successful `normalizeBlock`: the produced
record's fields in terms of the extraction functions. -/
lemma normalizeBlock_ok_elim {tzdb : String → Int → Int} {dtz block : String}
    {ev : NormalizedEvent} (h : normalizeBlock tzdb dtz block = Except.ok ev) :
    ∃ s e, toISOWithZone tzdb (getLine block ("DTSTART")) dtz = Except.ok s ∧
      toISOWithZone tzdb (getLine block ("DTEND")) dtz = Except.ok e ∧
      ev = ⟨if unesc (getSimple block ("SUMMARY")) = "" then "Untitled"
              else unesc (getSimple block ("SUMMARY")),
            unesc (getSimple block ("LOCATION")),
            unesc (getSimple block ("DESCRIPTION")),
            (match getLine block ("DTSTART") with
              | none => false
              | some l => (paramLookup l.params ("VALUE") == some ("DATE")) ||
                  isDigits8 l.value),
            s, e⟩ := by
  simp only [normalizeBlock] at h
  cases hs : toISOWithZone tzdb (getLine block ("DTSTART")) dtz with
  | error u =>
    rw [hs] at h
    exact absurd h (by simp)
  | ok s =>
    cases he : toISOWithZone tzdb (getLine block ("DTEND")) dtz with
    | error u =>
      rw [hs, he] at h
      exact absurd h (by simp)
    | ok e =>
      rw [hs, he] at h
      injection h with h2
      exact ⟨s, e, rfl, rfl, h2.symm⟩

/-- A block whose two date fields resolve without a thrown error
normalizes successfully. -/
lemma normalizeBlock_isOk {tzdb : String → Int → Int} {dtz block : String}
    (h1 : (toISOWithZone tzdb (getLine block ("DTSTART")) dtz).isOk = true)
    (h2 : (toISOWithZone tzdb (getLine block ("DTEND")) dtz).isOk = true) :
    ∃ ev, normalizeBlock tzdb dtz block = Except.ok ev := by
  obtain ⟨s, hs⟩ := except_isOk_iff.mp h1
  obtain ⟨e, he⟩ := except_isOk_iff.mp h2
  refine ⟨⟨if unesc (getSimple block ("SUMMARY")) = "" then "Untitled"
        else unesc (getSimple block ("SUMMARY")),
      unesc (getSimple block ("LOCATION")),
      unesc (getSimple block ("DESCRIPTION")),
      (match getLine block ("DTSTART") with
        | none => false
        | some l => (paramLookup l.params ("VALUE") == some ("DATE")) ||
            isDigits8 l.value),
      s, e⟩, ?_⟩
  simp only [normalizeBlock]
  rw [hs, he]

/-- `mapM` over `Except` succeeds, with one output per input, when every
element succeeds. -/
lemma mapM_ok {α β : Type} (f : α → Except Unit β) :
    ∀ l : List α, (∀ b ∈ l, ∃ r, f b = Except.ok r) →
    ∃ rs, l.mapM f = Except.ok rs ∧ rs.length = l.length := by
  intro l
  induction l with
  | nil =>
    intro _
    exact ⟨[], rfl, rfl⟩
  | cons a l ih =>
    intro hall
    obtain ⟨b, hb⟩ := hall a (by simp)
    obtain ⟨rs, hrs, hlen⟩ := ih (fun x hx => hall x (by simp [hx]))
    refine ⟨b :: rs, ?_, by simp [hlen]⟩
    rw [List.mapM_cons, hb, hrs]
    rfl

/-! ## Claim theorems -/

/-- C7: a successfully normalized block has a null `start` exactly when
field extraction finds no `DTSTART` field (a missing field yields a null
instant without invoking resolution), and likewise a null `end` exactly
when there is no `DTEND` field; a present field always produces a
concrete resolved instant. -/
theorem start_null_iff_no_field (tzdb : String → Int → Int) (dtz block : String)
    (ev : NormalizedEvent) (h : normalizeBlock tzdb dtz block = Except.ok ev) :
    (ev.start = none ↔ getLine block ("DTSTART") = none) ∧
    (ev.end_ = none ↔ getLine block ("DTEND") = none) := by
  obtain ⟨s, e, hs, he, rfl⟩ := normalizeBlock_ok_elim h
  constructor
  · show s = none ↔ _
    cases hg : getLine block ("DTSTART") with
    | none =>
      rw [hg] at hs
      simp only [toISOWithZone] at hs
      injection hs with h2
      simp [← h2]
    | some l =>
      rw [hg] at hs
      have hsome := toISOWithZone_ok_some hs
      constructor
      · intro hn
        rw [hn] at hsome
        exact absurd hsome (by simp)
      · intro hn
        exact absurd hn (by simp)
  · show e = none ↔ _
    cases hg : getLine block ("DTEND") with
    | none =>
      rw [hg] at he
      simp only [toISOWithZone] at he
      injection he with h2
      simp [← h2]
    | some l =>
      rw [hg] at he
      have hsome := toISOWithZone_ok_some he
      constructor
      · intro hn
        rw [hn] at hsome
        exact absurd hsome (by simp)
      · intro hn
        exact absurd hn (by simp)

/-- Witness for C7 at a concrete block with no date fields. -/
theorem start_null_iff_no_field_witness :
    (((⟨"Choir", "", "", false, none, none⟩ : NormalizedEvent).start = none ↔
        getLine ("BEGIN:VEVENT\nSUMMARY:Choir\nEND:VEVENT") ("DTSTART") = none) ∧
     ((⟨"Choir", "", "", false, none, none⟩ : NormalizedEvent).end_ = none ↔
        getLine ("BEGIN:VEVENT\nSUMMARY:Choir\nEND:VEVENT") ("DTEND") = none)) :=
  start_null_iff_no_field trivTzdb TIMEZONE ("BEGIN:VEVENT\nSUMMARY:Choir\nEND:VEVENT")
    ⟨"Choir", "", "", false, none, none⟩ (by decide)

/-- C10: whenever the unescaped, trimmed `SUMMARY` value of a block is
the empty string — because the field is absent, whitespace-only, or
decodes to nothing — the normalized title is the placeholder
`"Untitled"`. -/
theorem title_placeholder_when_blank (tzdb : String → Int → Int)
    (dtz block : String) (ev : NormalizedEvent)
    (hsum : unesc (getSimple block ("SUMMARY")) = "")
    (h : normalizeBlock tzdb dtz block = Except.ok ev) :
    ev.title = "Untitled" := by
  obtain ⟨s, e, hs, he, rfl⟩ := normalizeBlock_ok_elim h
  show (if unesc (getSimple block ("SUMMARY")) = "" then "Untitled"
    else unesc (getSimple block ("SUMMARY"))) = "Untitled"
  rw [if_pos hsum]

/-- Witness for C10 at a block whose `SUMMARY` value is whitespace-only. -/
theorem title_placeholder_when_blank_witness :
    (⟨"Untitled", "", "", false, none, none⟩ : NormalizedEvent).title = "Untitled" :=
  title_placeholder_when_blank trivTzdb TIMEZONE
    ("BEGIN:VEVENT\nSUMMARY:   \nEND:VEVENT")
    ⟨"Untitled", "", "", false, none, none⟩ (by decide) (by decide)

/-- A `YYYYMMDDTHHMMSSZ` value is not an 8-digit bare date. -/
lemma isBasicZ_not_digits8 {v : String} (h : isBasicZ v = true) :
    isDigits8 v = false := by
  have h16 : v.data.length = 16 := by
    simp only [isBasicZ, Bool.and_eq_true, beq_iff_eq] at h
    exact h.1.1.1.1
  simp [isDigits8, h16]

/-- C4: a start value of the shape `YYYYMMDDTHHMMSSZ` is parsed directly
as the named UTC instant — independent of the timezone database and of
the configured display timezone, with no offset resolution — and in
particular `DTSTART:20250615T140000Z` normalizes to exactly
2025-06-15T14:00:00Z (epoch milliseconds 1749996000000). -/
theorem utc_passthrough :
    (∀ (tzdb : String → Int → Int) (dtz : String) (l : ICalLine),
       isBasicZ l.value = true →
       toISOWithZone tzdb (some l) dtz =
         Except.ok (some (dateUTCms (sliceVal l.value 0 4)
           (sliceVal l.value 4 6 - 1) (sliceVal l.value 6 8)
           (sliceVal l.value 9 11) (sliceVal l.value 11 13)
           (sliceVal l.value 13 15)))) ∧
    (∀ (tzdb tzdb2 : String → Int → Int) (dtz dtz2 : String) (l : ICalLine),
       isBasicZ l.value = true →
       toISOWithZone tzdb (some l) dtz = toISOWithZone tzdb2 (some l) dtz2) ∧
    (∀ (tzdb : String → Int → Int) (dtz : String),
       normalizeBlock tzdb dtz ("BEGIN:VEVENT\nDTSTART:20250615T140000Z\nEND:VEVENT") =
         Except.ok ⟨"Untitled", "", "", false, some 1749996000000, none⟩) := by
  have key : ∀ (tzdb : String → Int → Int) (dtz : String) (l : ICalLine),
      isBasicZ l.value = true →
      toISOWithZone tzdb (some l) dtz =
        Except.ok (some (dateUTCms (sliceVal l.value 0 4)
          (sliceVal l.value 4 6 - 1) (sliceVal l.value 6 8)
          (sliceVal l.value 9 11) (sliceVal l.value 11 13)
          (sliceVal l.value 13 15))) := by
    intro tzdb dtz l h
    simp only [toISOWithZone]
    rw [if_neg (by rw [isBasicZ_not_digits8 h]; simp)]
    rw [if_pos h]
    simp only [jsDateParse]
    rw [if_pos h]
  exact ⟨key, fun tzdb tzdb2 dtz dtz2 l h => (key tzdb dtz l h).trans (key tzdb2 dtz2 l h).symm,
    fun tzdb dtz => rfl⟩

/-- Witness for C4 at the claim's own example value. -/
theorem utc_passthrough_witness :
    toISOWithZone trivTzdb (some ⟨"20250615T140000Z", []⟩) TIMEZONE =
      Except.ok (some 1749996000000) :=
  (utc_passthrough.1 trivTzdb TIMEZONE ⟨"20250615T140000Z", []⟩ (by decide)).trans
    (by decide)

/-- C5 (amended): for a successfully normalized block, `allDay` is true
exactly when the first matching `DTSTART` line carries a `VALUE=DATE`
parameter or a bare 8-digit date value.  The third, oldest-variant test —
a literal `DTSTART;VALUE=DATE:` prefix — is anchored (without the `m`
flag) to the start of the block string, which always begins with
`BEGIN:VEVENT`, so it can never fire. -/
theorem allDay_iff (tzdb : String → Int → Int) (dtz block : String)
    (ev : NormalizedEvent) (h : normalizeBlock tzdb dtz block = Except.ok ev) :
    (ev.allDay = true ↔ ∃ l, getLine block ("DTSTART") = some l ∧
       (paramLookup l.params ("VALUE") = some ("DATE") ∨ isDigits8 l.value = true)) ∧
    (∀ b : String,
       ("DTSTART;VALUE=DATE:").data.isPrefixOf (("BEGIN:VEVENT" ++ b).data) = false) := by
  obtain ⟨s, e, hs, he, rfl⟩ := normalizeBlock_ok_elim h
  constructor
  · show (match getLine block ("DTSTART") with
      | none => false
      | some l => (paramLookup l.params ("VALUE") == some ("DATE")) ||
          isDigits8 l.value) = true ↔ _
    cases hg : getLine block ("DTSTART") with
    | none => simp
    | some l => simp
  · intro b
    rw [String.data_append]
    rfl

/-- Witness for C5 at a concrete `VALUE=DATE` block. -/
theorem allDay_iff_witness :
    (((⟨"Untitled", "", "", true, some (dateUTCms 2025 2 15 0 0 0), none⟩ :
          NormalizedEvent).allDay = true) ↔
       ∃ l, getLine ("BEGIN:VEVENT\nDTSTART;VALUE=DATE:20250315\nEND:VEVENT")
           ("DTSTART") = some l ∧
         (paramLookup l.params ("VALUE") = some ("DATE") ∨ isDigits8 l.value = true)) ∧
    (∀ b : String,
       ("DTSTART;VALUE=DATE:").data.isPrefixOf (("BEGIN:VEVENT" ++ b).data) = false) :=
  allDay_iff trivTzdb TIMEZONE ("BEGIN:VEVENT\nDTSTART;VALUE=DATE:20250315\nEND:VEVENT")
    ⟨"Untitled", "", "", true, some (dateUTCms 2025 2 15 0 0 0), none⟩ (by decide)

/-- Counterexample for C5 as frozen: the literal `DTSTART;VALUE=DATE:`
appears in the block text (even at a line start), yet the normalized
`allDay` flag is false, because the first `DTSTART` line wins. -/
theorem allDay_literal_counterexample :
    Except.map (fun ev => ev.allDay)
      (normalizeBlock trivTzdb TIMEZONE
        ("BEGIN:VEVENT\nDTSTART:20250315T120000\n" ++ "DTSTART;VALUE=DATE:" ++
          "20250315\nEND:VEVENT")) = Except.ok false := by decide

/-- C8 (amended): field extraction returns everything after the first
colon of the first matching line up to line end — a nonempty capture —
but trimmed of surrounding whitespace (the source applies `.trim()`),
for both `getLine` and `getSimple`. -/
theorem extraction_after_colon_trimmed :
    (∀ (block name : String) (l : ICalLine), getLine block name = some l →
       ∃ ln ∈ splitLines block.data, ∃ ps v, ln = name.data ++ ps ++ ':' :: v ∧
         (∀ c ∈ ps, c ≠ ':') ∧ v ≠ [] ∧
         l.value = String.mk (trimChars v) ∧ l.params = parseParams ps) ∧
    (∀ block name : String, getSimple block name = "" ∨
       ∃ ln ∈ splitLines block.data, ∃ mid v, ln = name.data ++ mid ++ ':' :: v ∧
         v ≠ [] ∧ getSimple block name = String.mk (trimChars v)) := by
  constructor
  · intro block name l h
    unfold getLine at h
    cases hg : getLineAux name.data (splitLines block.data) with
    | none =>
      rw [hg] at h
      exact absurd h (by simp)
    | some r =>
      rw [hg] at h
      obtain ⟨ln, hmem, hml⟩ := getLineAux_eq_some hg
      obtain ⟨ps, v⟩ := r
      obtain ⟨hdec, hps, hv⟩ := matchGetLine_eq_some hml
      refine ⟨ln, hmem, ps, v, hdec, hps, hv, ?_, ?_⟩
      · injection h with h2
        rw [← h2]
      · injection h with h2
        rw [← h2]
  · intro block name
    unfold getSimple
    cases hg : getSimpleAux name.data (splitLines block.data) with
    | none => exact Or.inl rfl
    | some v =>
      obtain ⟨ln, hmem, hml⟩ := getSimpleAux_eq_some hg
      obtain ⟨mid, hdec, hv⟩ := matchGetSimple_eq_some hml
      exact Or.inr ⟨ln, hmem, mid, v, hdec, hv, rfl⟩

/-- Witness for C8 at a concrete parameterized line. -/
theorem extraction_after_colon_trimmed_witness :
    ∃ ln ∈ splitLines ("BEGIN:VEVENT\nDTSTART;TZID=X: v \nEND:VEVENT").data,
      ∃ ps v, ln = ("DTSTART").data ++ ps ++ ':' :: v ∧
        (∀ c ∈ ps, c ≠ ':') ∧ v ≠ [] ∧
        (⟨"v", [("TZID", "X")]⟩ : ICalLine).value = String.mk (trimChars v) ∧
        (⟨"v", [("TZID", "X")]⟩ : ICalLine).params = parseParams ps :=
  extraction_after_colon_trimmed.1 ("BEGIN:VEVENT\nDTSTART;TZID=X: v \nEND:VEVENT")
    ("DTSTART") ⟨"v", [("TZID", "X")]⟩ (by decide)

/-- Counterexample for C8 as frozen: the captured text after the colon is
` hi ` (with surrounding blanks), but extraction returns the trimmed
`"hi"` — the value is not returned unmodified. -/
theorem extraction_counterexample :
    getSimple ("BEGIN:VEVENT\nSUMMARY: hi \nEND:VEVENT") ("SUMMARY") = "hi" ∧
    getSimple ("BEGIN:VEVENT\nSUMMARY: hi \nEND:VEVENT") ("SUMMARY") ≠ " hi " ∧
    Option.map ICalLine.value
      (getLine ("BEGIN:VEVENT\nDTSTART: 20250615T140000Z \nEND:VEVENT") ("DTSTART")) =
      some ("20250615T140000Z") := by decide

/-- C9: a field line whose colon is immediately followed by the line end
is treated exactly as an absent field: scanning skips such a line for
both extraction patterns, `getLine` yields `null` (so the normalizer
yields a null instant) and `getSimple` yields the empty string. -/
theorem empty_value_as_absent :
    (∀ (name : List Char) (ls1 ls2 : List (List Char)),
       getLineAux name (ls1 ++ (name ++ [':']) :: ls2) = getLineAux name (ls1 ++ ls2) ∧
       getSimpleAux name (ls1 ++ (name ++ [':']) :: ls2) = getSimpleAux name (ls1 ++ ls2)) ∧
    getLine ("BEGIN:VEVENT\nDTSTART:\nEND:VEVENT") ("DTSTART") = none ∧
    getSimple ("BEGIN:VEVENT\nDTSTART:\nEND:VEVENT") ("DTSTART") = "" ∧
    (∀ (tzdb : String → Int → Int) (dtz : String),
       Except.map (fun ev => ev.start)
         (normalizeBlock tzdb dtz ("BEGIN:VEVENT\nDTSTART:\nEND:VEVENT")) =
         Except.ok none) := by
  refine ⟨?_, by decide, by decide, fun tzdb dtz => rfl⟩
  intro name ls1 ls2
  constructor
  · induction ls1 with
    | nil =>
      simp only [List.nil_append, getLineAux, matchGetLine_empty_value]
    | cons l ls1 ih =>
      simp only [List.cons_append, getLineAux]
      cases hm : matchGetLine name l with
      | some r => rfl
      | none => exact ih
  · induction ls1 with
    | nil =>
      simp only [List.nil_append, getSimpleAux, matchGetSimple_empty_value]
    | cons l ls1 ih =>
      simp only [List.cons_append, getSimpleAux]
      cases hm : matchGetSimple name l with
      | some r => rfl
      | none => exact ih

/-- C2 (amended): the normalizer aborts only on date values; whenever the
date fields of every block resolve without a thrown `RangeError`, the
parse returns exactly one record per block (in particular, text-field
failures never abort). -/
theorem parse_ok_when_dates_resolve (tzdb : String → Int → Int) (dtz ics : String)
    (h : ∀ b ∈ icsBlocks ics,
       (toISOWithZone tzdb (getLine b ("DTSTART")) dtz).isOk = true ∧
       (toISOWithZone tzdb (getLine b ("DTEND")) dtz).isOk = true) :
    ∃ evs, parseICS tzdb dtz ics = Except.ok evs ∧
      evs.length = (icsBlocks ics).length :=
  mapM_ok _ _ (fun b hb => normalizeBlock_isOk (h b hb).1 (h b hb).2)

/-- Witness for C2 at a well-formed one-event feed. -/
theorem parse_ok_when_dates_resolve_witness :
    ∃ evs, parseICS trivTzdb TIMEZONE
        ("BEGIN:VEVENT\nDTSTART:20250615T140000Z\nEND:VEVENT") = Except.ok evs ∧
      evs.length =
        (icsBlocks ("BEGIN:VEVENT\nDTSTART:20250615T140000Z\nEND:VEVENT")).length :=
  parse_ok_when_dates_resolve trivTzdb TIMEZONE
    ("BEGIN:VEVENT\nDTSTART:20250615T140000Z\nEND:VEVENT") (by decide)

/-- Counterexample for C2 as frozen: a feed with one block whose
`DTSTART` value matches no recognized shape and has no parseable date
content — the generic parse yields an invalid date, `toISOString` throws,
and `parseICS` aborts with an error instead of returning one record per
block. -/
theorem parse_aborts_counterexample :
    parseICS trivTzdb TIMEZONE ("BEGIN:VEVENT\nDTSTART:hello\nEND:VEVENT") =
      Except.error () ∧
    (icsBlocks ("BEGIN:VEVENT\nDTSTART:hello\nEND:VEVENT")).length = 1 := by
  exact ⟨by decide, by decide⟩

/-- C1 (amended): the resolver returns as offset the re-rendered-as-UTC
milliseconds minus the provisional milliseconds, read at the provisional
instant, and `wallClockToUTCISO` subtracts that offset from the
provisional milliseconds.  The result is the true UTC instant — i.e. the
zone renders it back to the given civil fields — whenever the offset in
effect at the resolved instant agrees with the offset at the provisional
instant; across a transition lying between the two this can fail (see the
counterexample). -/
theorem offset_resolver (lc : Int → Int) (y m d H M S : Int) :
    tzOffsetAt lc (dateUTCms y m d H M S) =
      lc (dateUTCms y m d H M S) - dateUTCms y m d H M S ∧
    wallClockToUTC lc y m d H M S =
      dateUTCms y m d H M S - tzOffsetAt lc (dateUTCms y m d H M S) ∧
    (tzOffsetAt lc (wallClockToUTC lc y m d H M S) =
        tzOffsetAt lc (dateUTCms y m d H M S) →
      lc (wallClockToUTC lc y m d H M S) = dateUTCms y m d H M S) := by
  refine ⟨rfl, rfl, ?_⟩
  intro h
  simp only [wallClockToUTC, tzOffsetAt] at h ⊢
  omega

/-- Witness for C1 with a fixed-offset renderer (offsets agree, the civil
fields round-trip). -/
theorem offset_resolver_witness :
    fixedMinus5 (wallClockToUTC fixedMinus5 2025 5 15 14 0 0) =
      dateUTCms 2025 5 15 14 0 0 :=
  (offset_resolver fixedMinus5 2025 5 15 14 0 0).2.2 (by decide)

/-- Counterexample for C1 as frozen: for civil time 2025-03-09 03:30:00
in `America/New_York` (just after the spring-forward transition), the
resolver reads the offset at the provisional instant (−5h), not the one
in effect at the resolved instant (−4h): the produced instant
2025-03-09T08:30Z renders to wall clock 04:30, not the requested 03:30,
while the true instant 2025-03-09T07:30Z (= 1741505400000) does render
to 03:30 — the DST transition is not captured. -/
theorem offset_resolver_counterexample :
    wallClockToUTC nyRender2025 2025 2 9 3 30 0 = 1741509000000 ∧
    tzOffsetAt nyRender2025 (dateUTCms 2025 2 9 3 30 0) = -18000000 ∧
    tzOffsetAt nyRender2025 1741509000000 = -14400000 ∧
    nyRender2025 1741509000000 ≠ dateUTCms 2025 2 9 3 30 0 ∧
    nyRender2025 1741509000000 = dateUTCms 2025 2 9 4 30 0 ∧
    nyRender2025 1741505400000 = dateUTCms 2025 2 9 3 30 0 ∧
    wallClockToUTC nyRender2025 2025 2 9 3 30 0 ≠ 1741505400000 := by decide

/-- A fold-free (newline-free) character list passes `removeFolds`
unchanged. -/
lemma removeFolds_no_newline {l : List Char} (h : '\n' ∉ l) :
    removeFolds l = l := by
  induction l with
  | nil => rfl
  | cons c rest ih =>
    have hc : c ≠ '\n' := fun he => h (he ▸ List.mem_cons_self c rest)
    have ht : '\n' ∉ rest := fun hm => h (List.mem_cons_of_mem c hm)
    cases rest with
    | nil => rfl
    | cons c2 rest2 =>
      have heq : removeFolds (c :: c2 :: rest2) =
          if c = '\n' ∧ (c2 = ' ' ∨ c2 = '\t') then removeFolds rest2
          else c :: removeFolds (c2 :: rest2) := rfl
      rw [heq, if_neg (fun hand => hc hand.1), ih ht]

/-- Removing the fold at the head of a list whose remainder is fold-free. -/
lemma removeFolds_fold_head {l2 : List Char} (c : Char)
    (hc : c = ' ' ∨ c = '\t') (h2 : '\n' ∉ l2) :
    removeFolds ('\n' :: c :: l2) = l2 := by
  have heq : removeFolds ('\n' :: c :: l2) =
      if ('\n' : Char) = '\n' ∧ (c = ' ' ∨ c = '\t') then removeFolds l2
      else '\n' :: removeFolds (c :: l2) := rfl
  rw [heq, if_pos ⟨rfl, hc⟩, removeFolds_no_newline h2]

/-- A single fold between two physical lines is removed, concatenating
the two lines. -/
lemma removeFolds_unfold {l1 l2 : List Char} (c : Char)
    (hc : c = ' ' ∨ c = '\t') (h1 : '\n' ∉ l1) (h2 : '\n' ∉ l2) :
    removeFolds (l1 ++ '\n' :: c :: l2) = l1 ++ l2 := by
  induction l1 with
  | nil => simpa using removeFolds_fold_head c hc h2
  | cons a l1 ih =>
    have ha : a ≠ '\n' := fun he => h1 (he ▸ List.mem_cons_self a l1)
    have ht : '\n' ∉ l1 := fun hm => h1 (List.mem_cons_of_mem a hm)
    cases l1 with
    | nil =>
      have heq : removeFolds (a :: '\n' :: c :: l2) =
          if a = '\n' ∧ (('\n' : Char) = ' ' ∨ ('\n' : Char) = '\t') then
            removeFolds (c :: l2)
          else a :: removeFolds ('\n' :: c :: l2) := rfl
      simp only [List.nil_append, List.cons_append]
      rw [heq, if_neg (fun hand => ha hand.1), removeFolds_fold_head c hc h2]
    | cons b l1 =>
      have heq : removeFolds (a :: b :: (l1 ++ '\n' :: c :: l2)) =
          if a = '\n' ∧ (b = ' ' ∨ b = '\t') then
            removeFolds (l1 ++ '\n' :: c :: l2)
          else a :: removeFolds (b :: (l1 ++ '\n' :: c :: l2)) := rfl
      simp only [List.cons_append] at heq ⊢
      rw [heq, if_neg (fun hand => ha hand.1)]
      rw [show (b :: (l1 ++ '\n' :: c :: l2)) = ((b :: l1) ++ '\n' :: c :: l2) from rfl]
      rw [ih ht]
      simp

/-- C6: preprocessing first normalizes CRLF to LF, then removes every
line fold — a newline followed by one space or tab — by concatenating the
two physical lines, and only then is the text split on the
`BEGIN:VEVENT` marker; in particular `"LINE1\n LINE2"` is seen by field
extraction as `"LINE1LINE2"`. -/
theorem preprocessing_unfolds :
    (∀ l1 l2 : List Char, '\n' ∉ l1 → '\n' ∉ l2 →
       removeFolds (l1 ++ '\n' :: ' ' :: l2) = l1 ++ l2 ∧
       removeFolds (l1 ++ '\n' :: '\t' :: l2) = l1 ++ l2) ∧
    (∀ s : String, preprocessICS s = String.mk (removeFolds (crlfToLf s.data))) ∧
    (∀ s : String, icsBlocks s =
       ((splitOnSeq (("BEGIN:VEVENT").data) (preprocessICS s).data).drop 1).map
         (fun b => String.mk (("BEGIN:VEVENT").data ++ b))) :=
  ⟨fun _ _ h1 h2 =>
    ⟨removeFolds_unfold ' ' (Or.inl rfl) h1 h2,
     removeFolds_unfold '\t' (Or.inr rfl) h1 h2⟩,
   fun _ => rfl, fun _ => rfl⟩

/-- Witness for C6 at the claim's own example. -/
theorem preprocessing_unfolds_witness :
    removeFolds (("LINE1").data ++ '\n' :: ' ' :: ("LINE2").data) =
      ("LINE1LINE2").data :=
  ((preprocessing_unfolds.1 ("LINE1").data ("LINE2").data (by decide) (by decide)).1).trans
    (by decide)

/-! ## Window selector lemmas -/

lemma eventLE_trans : ∀ a b c : NormalizedEvent,
    eventLE a b → eventLE b c → eventLE a c := by
  intro a b c hab hbc
  simp only [eventLE, decide_eq_true_eq] at hab hbc ⊢
  omega

lemma eventLE_total : ∀ a b : NormalizedEvent, eventLE a b || eventLE b a := by
  intro a b
  simp only [eventLE]
  by_cases h : startKey a ≤ startKey b
  · simp [h]
  · simp only [Bool.or_eq_true, decide_eq_true_eq]
    right
    omega

/-- Events sharing one start instant are pairwise related by the sort
order. -/
lemma pairwise_eventLE_filter_key (l : List NormalizedEvent) (k : Int) :
    (l.filter (fun e => e.start == some k)).Pairwise
      (fun a b => eventLE a b = true) := by
  have hall : ∀ a ∈ l.filter (fun e => e.start == some k),
      ∀ b ∈ l.filter (fun e => e.start == some k), eventLE a b = true := by
    intro a ha b hb
    rw [List.mem_filter] at ha hb
    have ha2 : a.start = some k := by simpa using ha.2
    have hb2 : b.start = some k := by simpa using hb.2
    simp [eventLE, startKey, ha2, hb2]
  exact List.pairwise_of_forall_mem_list hall

/-- Stability of the embedded sort: the subsequence of events with any
given start instant is unchanged by sorting. -/
lemma filter_key_mergeSort (l : List NormalizedEvent) (k : Int) :
    (l.mergeSort eventLE).filter (fun e => e.start == some k) =
      l.filter (fun e => e.start == some k) := by
  have hsub : List.Sublist (l.filter (fun e => e.start == some k))
      (l.mergeSort eventLE) :=
    List.sublist_mergeSort eventLE_trans eventLE_total
      (pairwise_eventLE_filter_key l k) (List.filter_sublist l)
  have hsub2 := hsub.filter (fun e => e.start == some k)
  rw [List.filter_filter] at hsub2
  have heq : (fun a : NormalizedEvent =>
      (a.start == some k) && (a.start == some k)) = fun a => a.start == some k := by
    funext a
    exact Bool.and_self _
  rw [heq] at hsub2
  have hperm := (List.mergeSort_perm l eventLE).filter (fun e => e.start == some k)
  exact (hsub2.eq_of_length hperm.length_eq.symm).symm

/-- C3: the window selector keeps exactly the events with a non-null
start inside `[now, now + 45 days]`, sorts them ascending by start with
a stable sort (equal-start events keep their relative feed order), and
truncates to the 30 chronologically earliest. -/
theorem selectWindow_spec (events : List NormalizedEvent) (now : Int) :
    (∀ e : NormalizedEvent, e ∈ windowFilter events now ↔
       e ∈ events ∧ ∃ s, e.start = some s ∧ now ≤ s ∧
         s ≤ now + DAYS_AHEAD * 86400000) ∧
    selectWindow events now =
      ((windowFilter events now).mergeSort eventLE).take MAX_ITEMS ∧
    ((windowFilter events now).mergeSort eventLE).Perm (windowFilter events now) ∧
    (selectWindow events now).Pairwise (fun a b => startKey a ≤ startKey b) ∧
    (∀ k : Int, ((windowFilter events now).mergeSort eventLE).filter
        (fun e => e.start == some k) =
      (windowFilter events now).filter (fun e => e.start == some k)) ∧
    (∀ x ∈ selectWindow events now,
       ∀ y ∈ ((windowFilter events now).mergeSort eventLE).drop MAX_ITEMS,
       startKey x ≤ startKey y) := by
  have hsorted := List.sorted_mergeSort eventLE_trans eventLE_total
    (windowFilter events now)
  have hsorted2 : ((windowFilter events now).mergeSort eventLE).Pairwise
      (fun a b => startKey a ≤ startKey b) := by
    refine hsorted.imp ?_
    intro a b h
    simpa [eventLE] using h
  refine ⟨?_, rfl, List.mergeSort_perm _ _, ?_,
    fun k => filter_key_mergeSort _ k, ?_⟩
  · intro e
    rw [windowFilter, List.mem_filter]
    constructor
    · rintro ⟨hmem, hw⟩
      refine ⟨hmem, ?_⟩
      cases hst : e.start with
      | none =>
        rw [inWindow, hst] at hw
        exact absurd hw (by simp)
      | some s =>
        rw [inWindow, hst] at hw
        simp only [Bool.and_eq_true, decide_eq_true_eq] at hw
        exact ⟨s, rfl, hw.1, hw.2⟩
    · rintro ⟨hmem, s, hst, hlo, hhi⟩
      refine ⟨hmem, ?_⟩
      rw [inWindow, hst]
      simp [hlo, hhi]
  · exact hsorted2.sublist (List.take_sublist _ _)
  · intro x hx y hy
    have hsplit := List.take_append_drop MAX_ITEMS
      ((windowFilter events now).mergeSort eventLE)
    rw [← hsplit] at hsorted2
    exact (List.pairwise_append.mp hsorted2).2.2 x hx y hy

/-- Witness for C3: a concrete event inside the window is selected by the
filter characterization. -/
theorem selectWindow_spec_witness :
    (⟨"A", "", "", false, some 5, none⟩ : NormalizedEvent) ∈
      windowFilter [⟨"A", "", "", false, some 5, none⟩] 0 :=
  ((selectWindow_spec [⟨"A", "", "", false, some 5, none⟩] 0).1
      ⟨"A", "", "", false, some 5, none⟩).mpr
    ⟨by decide, 5, rfl, by decide, by decide⟩

end AtriumCalendar
